import Mathlib

/-!
Verification development for the interactive Voronoi visualizer
(`src/main.rs`).  The point store, its mutation operations, the
persistence format and the per-frame render pipeline are embedded
shallowly:

* `f64` coordinates and `f32` color channels are modelled as rationals
  (exact arithmetic abstracts the floating-point values);
* the random number generator is modelled as an explicit supply of
  values, indexed by the order in which the program draws them;
* the external planar-subdivision collaborator (`Delaunay2D`) is
  modelled as an oracle `List Pt → VoronoiOut` passed to the render
  pipeline, since its code is not part of this repository;
* a Rust index expression that can panic (`colors[i]`, `points[*index]`)
  is modelled with `Option`: `none` is the panic.
-/

namespace InteractiveVoronoi

/-- A 2-D point, `type Point = (f64, f64)` / `[f64; 2]` in the source. -/
abbrev Pt : Type := ℚ × ℚ

/-- An RGBA color, `[f32; 4]` in the source. -/
abbrev Color : Type := ℚ × ℚ × ℚ × ℚ

/-- `static DEFAULT_WINDOW_WIDTH: u32 = 1280`. -/
def DEFAULT_WINDOW_WIDTH : ℚ := 1280

/-- `static DEFAULT_WINDOW_HEIGHT: u32 = 720`. -/
def DEFAULT_WINDOW_HEIGHT : ℚ := 720

/-- The fixed epsilon of `no_dot_there_yet`: `let epsilon = 0.001`. -/
def epsilon : ℚ := 1/1000

/-- Embedding of `fn no_dot_there_yet(dot: &[f64;2], dots: &Vec<[f64;2]>) -> bool`:
returns `false` as soon as some existing dot is within `epsilon` of `dot`
in both axes, `true` otherwise. -/
def no_dot_there_yet (dot : Pt) (dots : List Pt) : Bool :=
  dots.all fun d =>
    !(decide (|dot.1 - d.1| < epsilon) && decide (|dot.2 - d.2| < epsilon))

/-- The closeness test of `no_dot_there_yet` as a proposition: both axis
differences are strictly below `epsilon` (an axis-aligned box test). -/
def close (a b : Pt) : Prop :=
  |a.1 - b.1| < epsilon ∧ |a.2 - b.2| < epsilon

instance (a b : Pt) : Decidable (close a b) := by
  unfold close; infer_instance

/-- Embedding of `fn random_point() -> [f64; 2]`; the two `rand::random::<f64>()`
draws are the explicit arguments `u` and `v`. -/
def random_point (u v : ℚ) : Pt :=
  (u * DEFAULT_WINDOW_WIDTH, v * DEFAULT_WINDOW_HEIGHT)

/-- The pair of `Vec`s `dots` / `colors` owned by `event_loop`. -/
structure Store where
  dots : List Pt
  colors : List Color
deriving DecidableEq

/-- Embedding of `fn recolor(dots, colors)`: `colors.clear()` followed by one
`colors.push(random_color())` per dot.  `rc k` is the value of the k-th
`random_color()` call. -/
def recolor (dots : List Pt) (rc : ℕ → Color) : List Color :=
  dots.foldl (fun acc _ => acc ++ [rc acc.length]) []

/-- Embedding of `fn random_voronoi(dots, colors, num)`: clears both vectors,
then pushes `num` fresh random points and colors.  `u i` / `v i` are the two
`rand::random::<f64>()` draws of the i-th `random_point()` call and `rc i`
the i-th `random_color()`.  The prior store contents are discarded. -/
def random_voronoi (_s : Store) (num : ℕ) (u v : ℕ → ℚ) (rc : ℕ → Color) : Store :=
  (List.range num).foldl
    (fun acc i => ⟨acc.dots ++ [random_point (u i) (v i)], acc.colors ++ [rc i]⟩)
    ⟨[], []⟩

/-- The mouse-button-release arm of `event_loop`: insert the cursor position
with a fresh random color iff `no_dot_there_yet` accepts it. -/
def insertDot (p : Pt) (c : Color) (s : Store) : Store :=
  if no_dot_there_yet p s.dots then ⟨s.dots ++ [p], s.colors ++ [c]⟩ else s

/-- Folding a sequence of mouse-insert events over a store. -/
def applyInserts (L : List (Pt × Color)) (s : Store) : Store :=
  L.foldl (fun acc pc => insertDot pc.1 pc.2 acc) s

/-- The `PointStore` mutations performed by `event_loop`: the mouse-release
insert, `Key::N` (clear), `Key::R` (`random_voronoi`), `Key::C` (`recolor`),
and the startup path that loads dots from JSON and then recolors. -/
inductive Op where
  | insertOp (p : Pt) (c : Color)
  | clearOp
  | fillRandomOp (n : ℕ) (u v : ℕ → ℚ) (rc : ℕ → Color)
  | recolorOp (rc : ℕ → Color)
  | startupOp (loaded : List Pt) (rc : ℕ → Color)

/-- One `event_loop` mutation applied to the store, per the source arms:
`Key::N => { dots.clear(); colors.clear(); }`,
`Key::R => random_voronoi(..)`, `Key::C => recolor(..)`,
`Button::Mouse(_) => { if no_dot_there_yet .. push both }`, and at startup
`dots = load_dots(jsf); recolor(&dots, &mut colors)`. -/
def applyOp : Op → Store → Store
  | Op.insertOp p c, s => insertDot p c s
  | Op.clearOp, _ => ⟨[], []⟩
  | Op.fillRandomOp n u v rc, s => random_voronoi s n u v rc
  | Op.recolorOp rc, s => ⟨s.dots, recolor s.dots rc⟩
  | Op.startupOp loaded rc, _ => ⟨loaded, recolor loaded rc⟩

/-! ## Persistence

`save_current_dots` serializes `dots : Vec<[f64;2]>` with
`serde_json::to_string`, `load_dots` parses with `serde_json::from_str`.
The JSON text layer (number printing and lexing, exact for finite `f64`
by serde_json's shortest-round-trip representation) belongs to the external
serde collaborator; the structure the repository's code determines —
an array of 2-element numeric arrays — is modelled as a JSON value tree. -/

/-- A JSON value. -/
inductive Json where
  | null
  | bool (b : Bool)
  | num (q : ℚ)
  | str (cs : List Char)
  | arr (l : List Json)

/-- Embedding of `fn save_current_dots(dots)` at the JSON-value level:
`serde_json::to_string(dots)` writes each dot as a 2-element array of its
coordinates, in store order. -/
def save_current_dots (dots : List Pt) : Json :=
  Json.arr (dots.map fun p => Json.arr [Json.num p.1, Json.num p.2])

/-- serde's deserialization of one `[f64;2]`: exactly a 2-element array of
numbers; anything else is a parse error. -/
def parseDot : Json → Option Pt
  | Json.arr [Json.num x, Json.num y] => some (x, y)
  | _ => none

/-- Embedding of `fn load_dots(json_file)` at the JSON-value level:
`serde_json::from_str::<Vec<[f64;2]>>` requires an array of 2-element
numeric arrays; `none` is the `expect` panic on malformed input. -/
def load_dots (j : Json) : Option (List Pt) :=
  match j with
  | Json.arr l => l.mapM parseDot
  | _ => none

/-! ## Render pipeline -/

/-- `graphics::clear([1.0; 4], g)` clears to white. -/
def whiteColor : Color := (1, 1, 1, 1)

/-- `let color = [0.0, 0.0, 1.0, 1.0]` in `draw_lines_in_polygon`. -/
def blueColor : Color := (0, 0, 1, 1)

/-- `let color = [0.0, 0.0, 0.0, 1.0]` in `draw_ellipse`. -/
def blackColor : Color := (0, 0, 0, 1)

/-- One immediate-mode draw command issued to the graphics collaborator. -/
inductive DrawCmd where
  | clear (color : Color)
  | line (color : Color) (width : ℚ) (seg : ℚ × ℚ × ℚ × ℚ)
  | polygon (color : Color) (pts : List Pt)
  | ellipse (color : Color) (rect : ℚ × ℚ × ℚ × ℚ)
deriving DecidableEq

/-- Embedding of `fn draw_lines_in_polygon(poly, c, g)`:
`for i in 0..poly.len()-1` emit
`graphics::line(blue, 2.0, [poly[i].0, poly[i].1, poly[i+1].0, poly[i+1].1])`.
The indices are in range for nonempty `poly`, so total `getD` indexing is
used (the source is only ever called on the algorithm's region polygons). -/
def draw_lines_in_polygon (poly : List Pt) : List DrawCmd :=
  (List.range (poly.length - 1)).map fun i =>
    DrawCmd.line blueColor 2
      ((poly.getD i (0, 0)).1, (poly.getD i (0, 0)).2,
       (poly.getD (i+1) (0, 0)).1, (poly.getD (i+1) (0, 0)).2)

/-- Embedding of `fn draw_polygon(poly, c, g, color)`:
one `graphics::polygon(color, points, ..)` command over the vertices. -/
def draw_polygon (poly : List Pt) (color : Color) : DrawCmd :=
  DrawCmd.polygon color poly

/-- Embedding of `fn draw_ellipse(cursor, c, g)`:
`graphics::ellipse(black, graphics::ellipse::circle(x, y, 4.0), ..)`, whose
bounding rectangle is `[x - 4, y - 4, 2 * 4, 2 * 4]`. -/
def draw_ellipse (d : Pt) : DrawCmd :=
  DrawCmd.ellipse blackColor (d.1 - 4, d.2 - 4, 2 * 4, 2 * 4)

/-- The output of `Delaunay2D::export_voronoi_regions()`: a vertex pool and
one list of vertex indices per region. -/
structure VoronoiOut where
  points : List Pt
  regions : List (List ℕ)

/-- The body of `for (i, region) in regions.iter().enumerate()`: resolve the
region's vertex indices through the vertex pool (`points[*index]`, `none` on
an out-of-range index), then either outline the polygon or fill it with
`colors[i]` (`none` when `i` is out of range of `colors` — the indexing
panic). -/
def renderCell (points : List Pt) (colors : List Color) (lines_only : Bool)
    (i : ℕ) (region : List ℕ) : Option (List DrawCmd) := do
  let poly ← region.mapM fun idx => points.get? idx
  if lines_only then
    pure (draw_lines_in_polygon poly)
  else do
    let color ← colors.get? i
    pure [draw_polygon poly color]

/-- Embedding of the render closure of `event_loop`: clear to white, feed the
current dots to the planar-subdivision collaborator `algo` (the source
constructs a fresh `Delaunay2D` centered at half the window size with scale
`sqrt 2 * max(width, height)` and adds every dot — the oracle abstracts that
call), draw every returned region, then draw one marker ellipse per dot.
`none` models a panic anywhere in the frame. -/
def renderCommands (algo : List Pt → VoronoiOut) (dots : List Pt)
    (colors : List Color) (lines_only : Bool) : Option (List DrawCmd) := do
  let cells ← (algo dots).regions.enum.mapM fun ir =>
    renderCell (algo dots).points colors lines_only ir.1 ir.2
  pure (DrawCmd.clear whiteColor :: (cells.flatten ++ dots.map draw_ellipse))

/-- Cell geometry is a line or a polygon command (never a marker or clear). -/
def isCellGeometry : DrawCmd → Bool
  | DrawCmd.line _ _ _ => true
  | DrawCmd.polygon _ _ => true
  | _ => false

/-! ## Concrete instances used in witnesses and counterexamples -/

/-- A fixed color value for concrete instantiations. -/
def c0 : Color := (1/2, 1/2, 1/2, 1)

/-- An oracle returning no regions on every input. -/
def algoEmpty : List Pt → VoronoiOut := fun _ => ⟨[], []⟩

/-- An oracle returning one two-vertex region on every input, the empty
input included. -/
def algoOneEdge : List Pt → VoronoiOut := fun _ => ⟨[(0, 0), (1, 1)], [[0, 1]]⟩

/-- An oracle returning one triangular region on every input. -/
def algoTriangle : List Pt → VoronoiOut :=
  fun _ => ⟨[(0, 0), (1, 0), (0, 1)], [[0, 1, 2]]⟩

/-- The draw commands of the frame used to witness the marker-ordering
theorem: background clear, then the marker of the single dot `(1, 2)`. -/
def wRenderCmds : List DrawCmd :=
  [DrawCmd.clear whiteColor, DrawCmd.ellipse blackColor (1 - 4, 2 - 4, 2 * 4, 2 * 4)]

/-! ## Helper lemmas -/

theorem no_dot_there_yet_iff (p : Pt) (dots : List Pt) :
    no_dot_there_yet p dots = true ↔ ∀ d ∈ dots, ¬ close p d := by
  simp only [no_dot_there_yet, close, List.all_eq_true, not_and]
  constructor
  · intro h d hd hx hy
    have h2 := h d hd
    simp only [Bool.not_eq_true', Bool.and_eq_false_iff, decide_eq_false_iff_not] at h2
    rcases h2 with h2 | h2
    · exact h2 hx
    · exact h2 hy
  · intro h d hd
    simp only [Bool.not_eq_true', Bool.and_eq_false_iff, decide_eq_false_iff_not]
    by_cases hx : |p.1 - d.1| < epsilon
    · exact Or.inr (h d hd hx)
    · exact Or.inl hx

theorem close_comm (a b : Pt) : close a b ↔ close b a := by
  unfold close
  rw [abs_sub_comm, abs_sub_comm a.2]

theorem close_self (p : Pt) : close p p := by
  simp [close, epsilon]

theorem insertDot_pairwise (p : Pt) (c : Color) (s : Store)
    (h : s.dots.Pairwise fun a b => ¬ close a b) :
    ((insertDot p c s).dots).Pairwise fun a b => ¬ close a b := by
  by_cases hyes : no_dot_there_yet p s.dots = true
  · unfold insertDot
    rw [if_pos hyes]
    show (s.dots ++ [p]).Pairwise fun a b => ¬ close a b
    rw [List.pairwise_append]
    refine ⟨h, List.pairwise_singleton _ _, ?_⟩
    intro a ha b hb
    rw [List.mem_singleton] at hb
    rw [hb]
    intro hc
    exact (no_dot_there_yet_iff p s.dots).mp hyes a ha ((close_comm a p).mp hc)
  · unfold insertDot
    rw [if_neg hyes]
    exact h

theorem applyInserts_pairwise (L : List (Pt × Color)) (s : Store)
    (h : s.dots.Pairwise fun a b => ¬ close a b) :
    ((applyInserts L s).dots).Pairwise fun a b => ¬ close a b := by
  induction L generalizing s with
  | nil => exact h
  | cons pc t ih =>
    simp only [applyInserts, List.foldl_cons]
    exact ih (insertDot pc.1 pc.2 s) (insertDot_pairwise pc.1 pc.2 s h)

theorem recolor_foldl_general (rc : ℕ → Color) (dots : List Pt) (acc : List Color) :
    dots.foldl (fun a _ => a ++ [rc a.length]) acc
      = acc ++ (List.range dots.length).map fun i => rc (acc.length + i) := by
  induction dots generalizing acc with
  | nil => simp
  | cons d t ih =>
    simp only [List.foldl_cons, List.length_cons]
    rw [ih, List.range_succ_eq_map]
    simp only [List.map_cons, List.map_map, List.append_assoc, List.singleton_append,
      List.length_append, List.length_singleton, Nat.add_zero]
    have hfun : ((fun i => rc (acc.length + i)) ∘ Nat.succ)
        = fun i => rc (acc.length + 1 + i) := by
      funext i
      simp only [Function.comp_apply]
      congr 1
      omega
    rw [hfun]

theorem recolor_eq_map (dots : List Pt) (rc : ℕ → Color) :
    recolor dots rc = (List.range dots.length).map rc := by
  rw [recolor, recolor_foldl_general]
  simp

theorem push_pairs_foldl (f : ℕ → Pt) (g : ℕ → Color) (l : List ℕ)
    (ds : List Pt) (cs : List Color) :
    l.foldl (fun acc i => Store.mk (acc.dots ++ [f i]) (acc.colors ++ [g i])) ⟨ds, cs⟩
      = ⟨ds ++ l.map f, cs ++ l.map g⟩ := by
  induction l generalizing ds cs with
  | nil => simp
  | cons a t ih =>
    simp [ih]

theorem random_voronoi_eq (s : Store) (n : ℕ) (u v : ℕ → ℚ) (rc : ℕ → Color) :
    random_voronoi s n u v rc
      = ⟨(List.range n).map fun i => random_point (u i) (v i), (List.range n).map rc⟩ := by
  rw [random_voronoi, push_pairs_foldl]
  simp

theorem mapM_some_mem {α β : Type} (f : α → Option β) :
    ∀ (l : List α) (ys : List β), l.mapM f = some ys → ∀ y ∈ ys, ∃ x ∈ l, f x = some y := by
  intro l
  induction l with
  | nil =>
    intro ys h y hy
    simp only [List.mapM_nil, pure, Option.some.injEq] at h
    rw [← h] at hy
    simp at hy
  | cons a t ih =>
    intro ys h y hy
    rw [List.mapM_cons] at h
    cases hfa : f a with
    | none =>
      rw [hfa] at h
      simp at h
    | some b =>
      rw [hfa] at h
      cases hmt : t.mapM f with
      | none =>
        rw [hmt] at h
        simp at h
      | some bs =>
        rw [hmt] at h
        simp only [Option.bind_eq_bind, Option.some_bind, pure, Option.some.injEq] at h
        rw [← h] at hy
        rcases List.mem_cons.mp hy with h1 | h1
        · exact ⟨a, List.mem_cons_self a t, h1 ▸ hfa⟩
        · rcases ih bs hmt y h1 with ⟨x, hx, hfx⟩
          exact ⟨x, List.mem_cons_of_mem a hx, hfx⟩

theorem mapM_none_of_mem {α β : Type} (f : α → Option β) :
    ∀ (l : List α) (x : α), x ∈ l → f x = none → l.mapM f = none := by
  intro l
  induction l with
  | nil =>
    intro x hx
    simp at hx
  | cons a t ih =>
    intro x hx hfx
    rw [List.mapM_cons]
    rcases List.mem_cons.mp hx with h1 | h1
    · rw [h1] at hfx
      rw [hfx]
      rfl
    · cases hfa : f a with
      | none => rfl
      | some b =>
        rw [ih x h1 hfx]
        rfl

theorem renderCell_geometry (points : List Pt) (colors : List Color)
    (lines_only : Bool) (i : ℕ) (region : List ℕ) (cs : List DrawCmd)
    (h : renderCell points colors lines_only i region = some cs) :
    ∀ c ∈ cs, isCellGeometry c = true := by
  unfold renderCell at h
  cases hp : region.mapM (fun idx => points.get? idx) with
  | none =>
    rw [hp] at h
    simp at h
  | some poly =>
    rw [hp] at h
    simp only [Option.bind_eq_bind, Option.some_bind] at h
    cases lines_only with
    | true =>
      simp only [if_true, pure, Option.some.injEq] at h
      rw [← h]
      intro c hc
      simp only [draw_lines_in_polygon, List.mem_map] at hc
      obtain ⟨j, _, hj⟩ := hc
      rw [← hj]
      rfl
    | false =>
      simp only [Bool.false_eq_true, if_false] at h
      cases hcol : colors.get? i with
      | none =>
        rw [hcol] at h
        simp at h
      | some col =>
        rw [hcol] at h
        simp only [Option.some_bind, pure, Option.some.injEq] at h
        rw [← h]
        intro c hc
        rw [List.mem_singleton] at hc
        rw [hc]
        rfl

theorem renderCell_none_of_ge (points : List Pt) (colors : List Color)
    (i : ℕ) (region : List ℕ) (h : colors.length ≤ i) :
    renderCell points colors false i region = none := by
  unfold renderCell
  cases hp : region.mapM (fun idx => points.get? idx) with
  | none => rfl
  | some poly =>
    simp only [Option.bind_eq_bind, Option.some_bind, Bool.false_eq_true, if_false]
    rw [List.get?_eq_none.mpr h]
    rfl

/-! ## Claim theorems -/

/-- Claim C3: `insert(p)` adds `p` (with a fresh color) if and only if no
existing site lies within `0.001` of `p` in both axes (the axis-aligned box
test of `no_dot_there_yet`); consequently, starting from the empty store, any
sequence of inserts leaves no two retained sites within `0.001` of each
other in both axes, and inserting an exact duplicate never changes the
number of sites. -/
theorem insert_dedup_spec :
    (∀ (p : Pt) (c : Color) (s : Store),
        insertDot p c s = ⟨s.dots ++ [p], s.colors ++ [c]⟩ ↔ ∀ d ∈ s.dots, ¬ close p d)
    ∧ (∀ L : List (Pt × Color),
        ((applyInserts L ⟨[], []⟩).dots).Pairwise fun a b => ¬ close a b)
    ∧ (∀ (p : Pt) (c : Color) (s : Store), p ∈ s.dots →
        (insertDot p c s).dots.length = s.dots.length) := by
  refine ⟨?_, ?_, ?_⟩
  · intro p c s
    constructor
    · intro he d hd hc
      have hno : no_dot_there_yet p s.dots = false := by
        rw [Bool.eq_false_iff]
        intro ht
        exact (no_dot_there_yet_iff p s.dots).mp ht d hd hc
      unfold insertDot at he
      rw [hno] at he
      simp only [Bool.false_eq_true, if_false] at he
      have hlen := congrArg (fun st => st.dots.length) he
      simp at hlen
    · intro hf
      unfold insertDot
      rw [(no_dot_there_yet_iff p s.dots).mpr hf]
      simp
  · intro L
    exact applyInserts_pairwise L ⟨[], []⟩ (List.Pairwise.nil)
  · intro p c s hp
    have hno : no_dot_there_yet p s.dots = false := by
      rw [Bool.eq_false_iff]
      intro ht
      exact (no_dot_there_yet_iff p s.dots).mp ht p hp (close_self p)
    unfold insertDot
    rw [hno]
    simp

/-- Witness for C3: inserting the exact duplicate `(0,0)` into a store that
already holds `(0,0)` leaves the number of sites at `1`. -/
theorem insert_dedup_spec_witness :
    (insertDot ((0 : ℚ), (0 : ℚ)) c0 ⟨[(0, 0)], [c0]⟩).dots.length = 1 :=
  insert_dedup_spec.2.2 (0, 0) c0 ⟨[(0, 0)], [c0]⟩ (by decide)

/-- Claim C10: the deduplication box test uses strict inequality — a
candidate whose coordinate difference from every existing site is at least
`0.001` in at least one axis passes `no_dot_there_yet` and is inserted; in
particular a point exactly `0.001` away in one axis is not a duplicate. -/
theorem strict_epsilon_accepts :
    ∀ (p : Pt) (c : Color) (dots : List Pt) (cols : List Color),
      (∀ d ∈ dots, epsilon ≤ |p.1 - d.1| ∨ epsilon ≤ |p.2 - d.2|) →
      no_dot_there_yet p dots = true ∧
        insertDot p c ⟨dots, cols⟩ = ⟨dots ++ [p], cols ++ [c]⟩ := by
  intro p c dots cols h
  have ht : no_dot_there_yet p dots = true := by
    rw [no_dot_there_yet_iff]
    intro d hd hc
    rcases h d hd with h1 | h1
    · exact absurd hc.1 (not_lt.mpr h1)
    · exact absurd hc.2 (not_lt.mpr h1)
  refine ⟨ht, ?_⟩
  unfold insertDot
  rw [ht]
  simp

/-- Witness for C10: the point `(0.001, 0)` is exactly `0.001` away in the
x axis from the only existing site `(0, 0)` and is accepted and inserted. -/
theorem strict_epsilon_accepts_witness :
    no_dot_there_yet (1/1000, 0) [(0, 0)] = true ∧
      insertDot (1/1000, 0) c0 ⟨[(0, 0)], []⟩ = ⟨[(0, 0)] ++ [(1/1000, 0)], [] ++ [c0]⟩ :=
  strict_epsilon_accepts (1/1000, 0) c0 [(0, 0)] []
    (by
      intro d hd
      rw [List.mem_singleton] at hd
      rw [hd]
      left
      rw [show ((1/1000 : ℚ), (0 : ℚ)).1 - ((0 : ℚ), (0 : ℚ)).1 = 1/1000 by norm_num]
      rw [show |(1/1000 : ℚ)| = 1/1000 by norm_num]
      exact le_refl _)

/-- Claim C2: after every PointStore operation of the event loop (mouse
insert, clear on `N`, `random_voronoi` on `R`, `recolor` on `C`, and the
startup load-then-recolor path), the number of sites equals the number of
colors. -/
theorem pointstore_count_invariant :
    ∀ (op : Op) (s : Store), s.dots.length = s.colors.length →
      (applyOp op s).dots.length = (applyOp op s).colors.length := by
  intro op s h
  cases op with
  | insertOp p c =>
    show (insertDot p c s).dots.length = (insertDot p c s).colors.length
    unfold insertDot
    by_cases hyes : no_dot_there_yet p s.dots = true
    · rw [hyes]
      simp [h]
    · rw [Bool.eq_false_iff.mpr hyes]
      simpa using h
  | clearOp => rfl
  | fillRandomOp n u v rc =>
    show (random_voronoi s n u v rc).dots.length = (random_voronoi s n u v rc).colors.length
    rw [random_voronoi_eq]
    simp
  | recolorOp rc =>
    show s.dots.length = (recolor s.dots rc).length
    rw [recolor_eq_map]
    simp
  | startupOp loaded rc =>
    show loaded.length = (recolor loaded rc).length
    rw [recolor_eq_map]
    simp

/-- Witness for C2: inserting the point `(1, 1)` into the empty store leaves
equal site and color counts. -/
theorem pointstore_count_invariant_witness :
    (applyOp (Op.insertOp (1, 1) c0) ⟨[], []⟩).dots.length
      = (applyOp (Op.insertOp (1, 1) c0) ⟨[], []⟩).colors.length :=
  pointstore_count_invariant (Op.insertOp (1, 1) c0) ⟨[], []⟩ rfl

/-- Claim C9: `recolor()` replaces every color with a fresh random color
(the i-th color becomes the i-th draw of the random supply) while leaving
the sites sequence exactly as before, and afterwards the number of colors
equals the number of sites. -/
theorem recolor_preserves_sites :
    ∀ (s : Store) (rc : ℕ → Color),
      (applyOp (Op.recolorOp rc) s).dots = s.dots ∧
      (applyOp (Op.recolorOp rc) s).colors = (List.range s.dots.length).map rc ∧
      (applyOp (Op.recolorOp rc) s).colors.length = (applyOp (Op.recolorOp rc) s).dots.length := by
  intro s rc
  refine ⟨rfl, ?_, ?_⟩
  · show recolor s.dots rc = _
    exact recolor_eq_map s.dots rc
  · show (recolor s.dots rc).length = s.dots.length
    rw [recolor_eq_map]
    simp

/-- Claim C4: for every prior store contents and every `n`,
`random_voronoi` (the `R`-key fill) replaces the whole contents with exactly
`n` sites and `n` colors, and — provided each `rand::random::<f64>()` draw
lies in `[0,1)` as the generator guarantees — every site lies within
`[0,1280) x [0,720)`, the window bounds used by `random_point`. -/
theorem fillRandom_replace :
    ∀ (s : Store) (n : ℕ) (u v : ℕ → ℚ) (rc : ℕ → Color),
      (∀ i < n, 0 ≤ u i ∧ u i < 1) → (∀ i < n, 0 ≤ v i ∧ v i < 1) →
      (random_voronoi s n u v rc).dots.length = n ∧
      (random_voronoi s n u v rc).colors.length = n ∧
      ∀ p ∈ (random_voronoi s n u v rc).dots,
        (0 ≤ p.1 ∧ p.1 < DEFAULT_WINDOW_WIDTH) ∧ (0 ≤ p.2 ∧ p.2 < DEFAULT_WINDOW_HEIGHT) := by
  intro s n u v rc hu hv
  rw [random_voronoi_eq]
  refine ⟨by simp, by simp, ?_⟩
  intro p hp
  simp only [List.mem_map, List.mem_range] at hp
  obtain ⟨i, hi, rfl⟩ := hp
  obtain ⟨hu0, hu1⟩ := hu i hi
  obtain ⟨hv0, hv1⟩ := hv i hi
  unfold random_point DEFAULT_WINDOW_WIDTH DEFAULT_WINDOW_HEIGHT
  refine ⟨⟨?_, ?_⟩, ?_, ?_⟩
  · exact mul_nonneg hu0 (by norm_num)
  · calc u i * 1280 < 1 * 1280 := by
          exact mul_lt_mul_of_pos_right hu1 (by norm_num)
    _ = 1280 := by norm_num
  · exact mul_nonneg hv0 (by norm_num)
  · calc v i * 720 < 1 * 720 := by
          exact mul_lt_mul_of_pos_right hv1 (by norm_num)
    _ = 720 := by norm_num

/-- Witness for C4: one random draw with both generator outputs `1/2` and
`1/3` gives a single in-bounds site and a single color. -/
theorem fillRandom_replace_witness :
    (random_voronoi ⟨[], []⟩ 1 (fun _ => 1/2) (fun _ => 1/3) (fun _ => c0)).dots.length = 1 ∧
    (random_voronoi ⟨[], []⟩ 1 (fun _ => 1/2) (fun _ => 1/3) (fun _ => c0)).colors.length = 1 ∧
    ∀ p ∈ (random_voronoi ⟨[], []⟩ 1 (fun _ => 1/2) (fun _ => 1/3) (fun _ => c0)).dots,
      (0 ≤ p.1 ∧ p.1 < DEFAULT_WINDOW_WIDTH) ∧ (0 ≤ p.2 ∧ p.2 < DEFAULT_WINDOW_HEIGHT) :=
  fillRandom_replace ⟨[], []⟩ 1 (fun _ => 1/2) (fun _ => 1/3) (fun _ => c0)
    (fun _ _ => by norm_num) (fun _ _ => by norm_num)

/-- Claim C5: saving any site sequence and loading the result yields the
same sequence back, coordinate-for-coordinate and in order (at the JSON
value level; the number-to-text layer is the external serde collaborator,
exact for finite `f64`). -/
theorem save_load_roundtrip :
    ∀ S : List Pt, load_dots (save_current_dots S) = some S := by
  intro S
  simp only [load_dots, save_current_dots]
  induction S with
  | nil => rfl
  | cons p t ih =>
    rw [List.map_cons, List.mapM_cons]
    rw [show parseDot (Json.arr [Json.num p.1, Json.num p.2]) = some (p.1, p.2) from rfl]
    simp only [Option.bind_eq_bind, Option.some_bind, ih, Option.bind_some]
    rfl

/-- Claim C6: in outline-only mode the pipeline emits, for each cell
polygon, exactly the width-2 blue line commands joining each pair of
consecutive vertices — the commands are the `zipWith` of the vertex list
with its tail, so the closing edge from the last vertex back to the first
is not among them (an open polyline). -/
theorem outline_open_polyline :
    ∀ poly : List Pt, 1 ≤ poly.length →
      draw_lines_in_polygon poly
        = List.zipWith (fun a b => DrawCmd.line blueColor 2 (a.1, a.2, b.1, b.2))
            poly poly.tail := by
  intro poly h
  match poly with
  | a :: rest =>
    show draw_lines_in_polygon (a :: rest) = List.zipWith _ (a :: rest) rest
    unfold draw_lines_in_polygon
    simp only [List.length_cons, Nat.add_sub_cancel]
    induction rest generalizing a with
    | nil => rfl
    | cons b t ih =>
      rw [show (b :: t).length = t.length + 1 from rfl, List.range_succ_eq_map,
        List.map_cons, List.map_map]
      have hfun : ((fun i =>
            DrawCmd.line blueColor 2
              (((a :: b :: t).getD i (0, 0)).1, ((a :: b :: t).getD i (0, 0)).2,
               ((a :: b :: t).getD (i+1) (0, 0)).1, ((a :: b :: t).getD (i+1) (0, 0)).2))
            ∘ Nat.succ)
          = fun i =>
            DrawCmd.line blueColor 2
              (((b :: t).getD i (0, 0)).1, ((b :: t).getD i (0, 0)).2,
               ((b :: t).getD (i+1) (0, 0)).1, ((b :: t).getD (i+1) (0, 0)).2) := by
        funext i
        simp only [Function.comp_apply, List.getD_cons_succ]
      rw [hfun, ih b (by simp)]
      rfl

/-- Witness for C6: a three-vertex polygon produces exactly its two
consecutive edges, without the closing edge. -/
theorem outline_open_polyline_witness :
    draw_lines_in_polygon [((0 : ℚ), (0 : ℚ)), (1, 0), (1, 1)]
      = List.zipWith (fun a b => DrawCmd.line blueColor 2 (a.1, a.2, b.1, b.2))
          [((0 : ℚ), (0 : ℚ)), (1, 0), (1, 1)]
          (List.tail [((0 : ℚ), (0 : ℚ)), (1, 0), (1, 1)]) :=
  outline_open_polyline [(0, 0), (1, 0), (1, 1)] (by simp)

/-- Claim C7: in every frame that renders without a panic, the command
sequence is the background clear, then the cell geometry (lines and
polygons only), then one filled-circle marker of radius 4 in fixed black at
each site's coordinates — so every marker command comes after every
cell-geometry command. -/
theorem markers_after_cells :
    ∀ (algo : List Pt → VoronoiOut) (dots : List Pt) (colors : List Color)
      (lines_only : Bool) (cmds : List DrawCmd),
      renderCommands algo dots colors lines_only = some cmds →
      ∃ cellPart : List DrawCmd,
        (∀ c ∈ cellPart, isCellGeometry c = true) ∧
        cmds = DrawCmd.clear whiteColor ::
          (cellPart ++ dots.map fun d =>
            DrawCmd.ellipse blackColor (d.1 - 4, d.2 - 4, 2 * 4, 2 * 4)) := by
  intro algo dots colors lo cmds h
  unfold renderCommands at h
  cases hm : (algo dots).regions.enum.mapM
      (fun ir => renderCell (algo dots).points colors lo ir.1 ir.2) with
  | none =>
    rw [hm] at h
    simp at h
  | some cells =>
    rw [hm] at h
    simp only [Option.bind_eq_bind, Option.some_bind, pure, Option.some.injEq] at h
    refine ⟨cells.flatten, ?_, ?_⟩
    · intro c hc
      rcases List.mem_flatten.mp hc with ⟨cs, hcs, hcin⟩
      rcases mapM_some_mem _ _ cells hm cs hcs with ⟨ir, _, hr⟩
      exact renderCell_geometry _ _ _ _ _ _ hr c hcin
    · rw [← h]
      rfl

/-- Witness for C7: a frame with one dot and no regions is the clear
followed by the dot's marker. -/
theorem markers_after_cells_witness :
    ∃ cellPart : List DrawCmd,
      (∀ c ∈ cellPart, isCellGeometry c = true) ∧
      wRenderCmds = DrawCmd.clear whiteColor ::
        (cellPart ++ [((1 : ℚ), (2 : ℚ))].map fun d =>
          DrawCmd.ellipse blackColor (d.1 - 4, d.2 - 4, 2 * 4, 2 * 4)) :=
  markers_after_cells algoEmpty [(1, 2)] [] false wRenderCmds rfl

/-- Claim C8 counterexample: the render closure always feeds the point set
to the external planar-subdivision collaborator, the empty set included —
the frame produced for zero dots depends on the collaborator's answer on
the empty input (two oracles that differ only there yield different
frames), so the algorithm IS invoked on the empty input, contrary to the
claim. -/
theorem empty_input_algo_invoked :
    renderCommands algoEmpty [] [] true ≠ renderCommands algoOneEdge [] [] true := by
  decide

/-- Claim C8 amended: with zero sites the render still invokes the external
algorithm, but — given the collaborator returns zero regions on the empty
input, per its contract in the spec — the frame holds no cell geometry and
no markers, only the background clear: an empty diagram, not an error. -/
theorem empty_dots_no_cells :
    ∀ (algo : List Pt → VoronoiOut) (colors : List Color) (lines_only : Bool),
      (algo []).regions = [] →
      renderCommands algo [] colors lines_only = some [DrawCmd.clear whiteColor] := by
  intro algo colors lo h
  unfold renderCommands
  rw [h]
  rfl

/-- Witness for C8's amended theorem at a concrete oracle with no regions. -/
theorem empty_dots_no_cells_witness :
    renderCommands algoEmpty [] [] true = some [DrawCmd.clear whiteColor] :=
  empty_dots_no_cells algoEmpty [] true rfl

/-- Claim C1 counterexample: when the collaborator returns one cell and
`colors` is empty (index 0 is at `len(colors)`), the filled-polygon path
panics on `colors[0]` — the render produces no draw commands at all, not a
draw command with a synthesized fallback color. -/
theorem no_fallback_color_panic :
    renderCommands algoTriangle [((5 : ℚ), (5 : ℚ))] [] false = none := by
  decide

/-- Claim C1 amended: whenever the external algorithm returns a cell at an
index `i ≥ len(colors)`, the filled-polygon rendering path fails with an
out-of-range indexing panic (`colors[i]`); it does not synthesize a
fallback color. -/
theorem filled_path_out_of_range :
    ∀ (algo : List Pt → VoronoiOut) (dots : List Pt) (colors : List Color),
      colors.length < (algo dots).regions.length →
      renderCommands algo dots colors false = none := by
  intro algo dots colors h
  unfold renderCommands
  have hmem : (colors.length, (algo dots).regions[colors.length]) ∈ (algo dots).regions.enum := by
    rw [List.mk_mem_enum_iff_getElem?]
    exact List.getElem?_eq_getElem h
  have hnone : renderCell (algo dots).points colors false colors.length
      ((algo dots).regions[colors.length]) = none :=
    renderCell_none_of_ge _ _ _ _ (le_refl _)
  rw [mapM_none_of_mem _ _ _ hmem hnone]
  rfl

/-- Witness for C1's amended theorem: one returned cell against zero colors
makes the filled render panic. -/
theorem filled_path_out_of_range_witness :
    renderCommands algoTriangle [((5 : ℚ), (5 : ℚ))] [] false = none :=
  filled_path_out_of_range algoTriangle [(5, 5)] [] (by decide)

end InteractiveVoronoi
